import Mathlib

/-!
Verification development for a two-stage scraping pipeline:
a crawler (`scrap.py`) that fetches article pages with retry, extracts
links and content, and writes text artifacts; and an extractor
(`excraction_features.py`) that derives structured funding records from
those artifacts.  The Python source is shallowly embedded: regular
expressions are translated into explicit character-list scanners with
the same leftmost-match and greediness semantics, the HTML tree is a
nested inductive with fuel-indexed (structurally recursive) traversals,
and the filesystem/CSV sinks are explicit state values.
-/

namespace Scrap

/-! ### Character classes (Python `re` semantics, restricted to the
character ranges the pipeline's texts exercise) -/

/-- Whitespace accepted by Python's `\s` (and `str.strip`/`str.split`):
ASCII whitespace plus the Unicode whitespace characters, including the
non-breaking space `\xa0` that the amount rule normalizes. -/
def isSpaceCh (c : Char) : Bool :=
  c == ' ' || c == '\t' || c == '\n' || c == '\r' || c == '\x0b' || c == '\x0c' ||
  c == '\x1c' || c == '\x1d' || c == '\x1e' || c == '\x1f' || c == '\x85' || c == '\xa0' ||
  c.toNat == 0x1680 || (0x2000 ≤ c.toNat && c.toNat ≤ 0x200a) ||
  c.toNat == 0x2028 || c.toNat == 0x2029 || c.toNat == 0x202f || c.toNat == 0x205f ||
  c.toNat == 0x3000

/-- Digits accepted by `\d` (the artifacts are ASCII). -/
def isDigitCh (c : Char) : Bool := '0' ≤ c && c ≤ '9'

/-- Word characters accepted by `\w`: alphanumerics and underscore. -/
def isWordCh (c : Char) : Bool := c.isAlphanum || c == '_'

/-- Word-boundary helper: `\b` next to a word character of the pattern
holds exactly when the neighbouring input character is absent or
non-word. -/
def nonWordOpt : Option Char → Bool
  | none => true
  | some c => !isWordCh c

/-- Literal pattern match at the head of the input. -/
def isPrefixL : List Char → List Char → Bool
  | [], _ => true
  | _ :: _, [] => false
  | p :: ps, c :: cs => p == c && isPrefixL ps cs

/-- Case-insensitive literal match at the head of the input; the
pattern is given in lowercase. -/
def isPrefixCIL : List Char → List Char → Bool
  | [], _ => true
  | _ :: _, [] => false
  | p :: ps, c :: cs => p == c.toLower && isPrefixCIL ps cs

/-- Python `str.strip`. -/
def pyStrip (l : List Char) : List Char :=
  ((l.dropWhile isSpaceCh).reverse.dropWhile isSpaceCh).reverse

/-- Helper for `pyWords`: accumulate the current word (reversed). -/
def pyWordsGo : List Char → List Char → List (List Char)
  | acc, [] => if acc.isEmpty then [] else [acc.reverse]
  | acc, c :: cs =>
    if isSpaceCh c then
      if acc.isEmpty then pyWordsGo [] cs else acc.reverse :: pyWordsGo [] cs
    else pyWordsGo (c :: acc) cs

/-- Python `str.split()` with no argument: split on whitespace runs,
dropping empty tokens. -/
def pyWords (l : List Char) : List (List Char) := pyWordsGo [] l

/-- Line-break characters recognized by Python `str.splitlines`. -/
def isLineBreakCh (c : Char) : Bool :=
  c == '\n' || c == '\r' || c == '\x0b' || c == '\x0c' || c == '\x1c' ||
  c == '\x1d' || c == '\x1e' || c == '\x85' ||
  c.toNat == 0x2028 || c.toNat == 0x2029

/-- Helper for `splitLinesPy`: accumulate the current line (reversed);
`\r\n` counts as a single break and a trailing break adds no empty
line, as in Python. -/
def splitLinesGo : List Char → List Char → List (List Char)
  | acc, [] => if acc.isEmpty then [] else [acc.reverse]
  | acc, '\r' :: '\n' :: cs => acc.reverse :: splitLinesGo [] cs
  | acc, c :: cs =>
    if isLineBreakCh c then acc.reverse :: splitLinesGo [] cs
    else splitLinesGo (c :: acc) cs

/-- Python `str.splitlines`. -/
def splitLinesPy (l : List Char) : List (List Char) := splitLinesGo [] l

/-- Python `str.title`, restricted to ASCII letters: the first letter of
every maximal letter run is uppercased, the rest lowercased.  The flag
records whether the previous character was a letter. -/
def pyTitleGo : Bool → List Char → List Char
  | _, [] => []
  | prev, c :: cs =>
    if c.isAlpha then
      (if prev then c.toLower else c.toUpper) :: pyTitleGo true cs
    else c :: pyTitleGo false cs

/-- Python `str.title` (ASCII). -/
def pyTitle (l : List Char) : List Char := pyTitleGo false l

/-- Leftmost-match scanner: try the matcher at every suffix, earliest
position first, as `re.search` does. -/
def scanOpt {α : Type} (f : List Char → Option α) : List Char → Option α
  | [] => f []
  | c :: cs =>
    match f (c :: cs) with
    | some r => some r
    | none => scanOpt f cs

/-- Leftmost-match scanner that also hands the matcher the character
just before the current position, for `\b` lookbehind. -/
def scanOptB {α : Type} (f : Option Char → List Char → Option α) :
    Option Char → List Char → Option α
  | prev, [] => f prev []
  | prev, c :: cs =>
    match f prev (c :: cs) with
    | some r => some r
    | none => scanOptB f (some c) cs

/-! ### Field extractor (`excraction_features.py`, `extract_info_from_text`) -/

/-- The fixed-schema record produced per artifact (the `filename`
provenance key is added by the dataset builder, not here). -/
structure FundingInfo where
  company_name : String
  funding_amount : String
  funding_type : String
  article_date : String
  company_since : String
  article_url : String
deriving DecidableEq, Repr

/-- The record with every field at the sentinel default. -/
def defaultInfo : FundingInfo :=
  { company_name := "undefined", funding_amount := "undefined",
    funding_type := "undefined", article_date := "undefined",
    company_since := "undefined", article_url := "undefined" }

/-- Matcher for `^Source:\s*(https?://[^\s]+)` at the current position
(which must be a line start); returns capture group 1.  `https?` is
greedy and `[^\s]+` must consume at least one character after the
scheme. -/
def sourceGroupAt (l : List Char) : Option (List Char) :=
  if isPrefixL ("Source:".toList) l then
    let rest := (l.drop 7).dropWhile isSpaceCh
    let scheme : Option Nat :=
      if isPrefixL ("https://".toList) rest then some 8
      else if isPrefixL ("http://".toList) rest then some 7
      else none
    match scheme with
    | none => none
    | some n =>
      let run := (rest.drop n).takeWhile (fun c => !isSpaceCh c)
      if run.isEmpty then none else some (rest.take n ++ run)
  else none

/-- Scan for the `Source:` pattern with `re.MULTILINE` anchoring: the
flag records whether the current position is the start of the string or
follows a newline. -/
def findSourceUrlGo : Bool → List Char → Option (List Char)
  | atLS, [] => if atLS then sourceGroupAt [] else none
  | atLS, c :: cs =>
    match (if atLS then sourceGroupAt (c :: cs) else none) with
    | some g => some g
    | none => findSourceUrlGo (c == '\n') cs

/-- Leftmost match of `^Source:\s*(https?://[^\s]+)` (multiline). -/
def findSourceUrl (l : List Char) : Option (List Char) := findSourceUrlGo true l

/-- Matcher for `Date:\s*([\w\s,]+)` at the current position; returns
group 1.  The greedy `\s*` takes the whole whitespace run; if no
class character follows, the engine backtracks one whitespace character
into the (overlapping) character class. -/
def dateGroupAt (l : List Char) : Option (List Char) :=
  if isPrefixL ("Date:".toList) l then
    let rest := l.drop 5
    let w := rest.takeWhile isSpaceCh
    let r := (rest.drop w.length).takeWhile
      (fun c => isWordCh c || isSpaceCh c || c == ',')
    if !r.isEmpty then some r
    else
      match w.getLast? with
      | some c => some [c]
      | none => none
  else none

/-- Month-name literals of the fallback date pattern (case-sensitive). -/
def monthLits : List (List Char) :=
  ["January".toList, "February".toList, "March".toList, "April".toList,
   "May".toList, "June".toList, "July".toList, "August".toList,
   "September".toList, "October".toList, "November".toList, "December".toList]

/-- Matcher for
`\b(January|…|December)\s+\d{1,2},\s+\d{4}\b` at the current position,
returning the whole match (group 0), which is what the code stores. -/
def monthAt (prev : Option Char) (l : List Char) : Option (List Char) :=
  if nonWordOpt prev then
    match monthLits.findSome? (fun m => if isPrefixL m l then some m else none) with
    | none => none
    | some m =>
      let r1 := l.drop m.length
      let w1 := r1.takeWhile isSpaceCh
      if w1.isEmpty then none else
      let r2 := r1.drop w1.length
      let dayLen : Option Nat :=
        if ((r2.take 2).length == 2 && (r2.take 2).all isDigitCh) && r2[2]? == some ',' then
          some 2
        else if ((r2.take 1).length == 1 && (r2.take 1).all isDigitCh) && r2[1]? == some ',' then
          some 1
        else none
      match dayLen with
      | none => none
      | some dl =>
        let r3 := r2.drop (dl + 1)
        let w2 := r3.takeWhile isSpaceCh
        if w2.isEmpty then none else
        let r4 := r3.drop w2.length
        let yr := r4.take 4
        if (yr.length == 4 && yr.all isDigitCh) && nonWordOpt r4[4]? then
          some (m ++ w1 ++ r2.take dl ++ [','] ++ w2 ++ yr)
        else none
  else none

/-- Matcher for `\bfounded in (\d{4})` (applied to the lowered text for
`re.IGNORECASE`), returning group 1. -/
def foundedAt (prev : Option Char) (l : List Char) : Option (List Char) :=
  if nonWordOpt prev then
    if isPrefixL ("founded in ".toList) l then
      let ds := (l.drop 11).take 4
      if ds.length == 4 && ds.all isDigitCh then some ds else none
    else none
  else none

/-- Scale-word literals of the amount pattern, in alternation order. -/
def scaleLits : List (List Char) :=
  ["million".toList, "billion".toList, "m".toList, "k".toList, "bn".toList]

/-- First scale word matching case-insensitively at the given position,
returned in original case. -/
def scaleHere (l : List Char) : Option (List Char) :=
  scaleLits.findSome? (fun sc => if isPrefixCIL sc l then some (l.take sc.length) else none)

/-- Matcher for
`([€$£]\s?\d+(?:[\.,]?\d+)?(?:\s?(?:million|billion|m|k|bn))?)` at the
current position (scale words case-insensitive), returning group 1 in
original case. -/
def amountAt : List Char → Option (List Char)
  | [] => none
  | c :: rest =>
    if c == '€' || c == '$' || c == '£' then
      let core : Option (List Char × List Char) :=
        match rest with
        | [] => none
        | w :: r2 =>
          if isSpaceCh w then
            let ds := r2.takeWhile isDigitCh
            if ds.isEmpty then none else some (w :: ds, r2.drop ds.length)
          else
            let ds := rest.takeWhile isDigitCh
            if ds.isEmpty then none else some (ds, rest.drop ds.length)
      match core with
      | none => none
      | some (num, rem) =>
        let fracRem : List Char × List Char :=
          match rem with
          | [] => ([], rem)
          | s :: r3 =>
            if s == '.' || s == ',' then
              let ds := r3.takeWhile isDigitCh
              if ds.isEmpty then ([], rem) else (s :: ds, r3.drop ds.length)
            else ([], rem)
        let rem2 := fracRem.2
        let scale : List Char :=
          match rem2 with
          | [] => []
          | s :: r4 =>
            if isSpaceCh s then
              match scaleHere r4 with
              | some g => s :: g
              | none => []
            else
              match scaleHere rem2 with
              | some g => g
              | none => []
        some (c :: (num ++ fracRem.1 ++ scale))
    else none

/-- Candidate funding types, in the order the code tries them. -/
def fundingTypes : List String :=
  ["seed", "pre-seed", "series a", "series b", "series c", "venture",
   "angel", "growth", "bridge"]

/-- Occurrence of the literal `p` at position `i` of `l` with `\b` on
both sides; all phrases used here begin and end with word characters,
so each boundary amounts to the neighbouring character being absent or
non-word. -/
def boundedAt (l p : List Char) (i : Nat) : Bool :=
  ((l.drop i).take p.length == p) &&
  (i == 0 || nonWordOpt l[i - 1]?) &&
  nonWordOpt l[i + p.length]?

/-- Whether `\b<p>\b` matches anywhere in `l` (existence is all the
funding-type rule uses). -/
def hasPhraseB (l p : List Char) : Bool :=
  (List.range (l.length + 1)).any (fun i => boundedAt l p i)

/-- The funding-type test for one candidate: `\b<ftype> funding\b`
against the lowered text. -/
def ftypeMatches (low : List Char) (f : String) : Bool :=
  hasPhraseB low (f.toList ++ " funding".toList)

/-- Delimiter literals of the company-name pattern (lowercase, for
`re.IGNORECASE`). -/
def delimLits : List (List Char) :=
  [",".toList, " has".toList, " announced".toList, " raises".toList,
   " raised".toList, " secured".toList]

/-- Whether one of the delimiters matches (case-insensitively) at the
head of the input. -/
def delimHere (l : List Char) : Bool := delimLits.any (fun d => isPrefixCIL d l)

/-- Position of the earliest delimiter occurrence: the end of the lazy
group `(.*?)` in `^(.*?)(?:,| has| announced| raises| raised| secured)`. -/
def findDelimPosGo : Nat → List Char → Option Nat
  | _, [] => none
  | i, c :: cs => if delimHere (c :: cs) then some i else findDelimPosGo (i + 1) cs

/-- Company-name heuristic on one line: the text before the earliest
delimiter, accepted only if it splits into 2–5 words, then stripped. -/
def companyFromLine (line : List Char) : Option (List Char) :=
  match findDelimPosGo 0 line with
  | none => none
  | some e =>
    let g := line.take e
    let n := (pyWords g).length
    if 2 ≤ n && n ≤ 5 then some (pyStrip g) else none

/-- The company-name window: lines 2–5 (0-indexed) of the stripped,
line-split text; the first line yielding a capture wins. -/
def companyField (l : List Char) : Option (List Char) :=
  (((splitLinesPy (pyStrip l)).drop 2).take 4).findSome? companyFromLine

/-- The extractor `extract_info_from_text`: apply the six independent pattern rules,
each field defaulting to `"undefined"`. -/
def extract_info_from_text (text : String) : FundingInfo :=
  let l := text.toList
  let low := l.map Char.toLower
  { company_name :=
      match companyField l with
      | some g => String.mk g
      | none => "undefined"
    funding_amount :=
      match scanOpt amountAt l with
      | some g => String.mk (g.map (fun ch => if ch == '\xa0' then ' ' else ch))
      | none => "undefined"
    funding_type :=
      match fundingTypes.find? (ftypeMatches low) with
      | some f => String.mk (pyTitle f.toList)
      | none => "undefined"
    article_date :=
      match scanOpt dateGroupAt l with
      | some g => String.mk g
      | none =>
        match scanOptB monthAt none l with
        | some g => String.mk g
        | none => "undefined"
    company_since :=
      match scanOptB foundedAt none low with
      | some g => String.mk g
      | none => "undefined"
    article_url :=
      match findSourceUrl l with
      | some g => String.mk g
      | none => "undefined" }

/-! ### Resilient fetch client (`scrap.py`, `fetch_html`) -/

/-- The constant `RETRY_BACKOFF = 2.0` (the backoff multiplier; all values are exact
in binary floating point, so ℚ is a faithful model). -/
def RETRY_BACKOFF : ℚ := 2

/-- Observable trace of one `fetch_html` call: the returned value, the
number of GET attempts issued, and the `time.sleep` durations in
order.  A `none` result models the terminal `return None`; every
per-attempt exception is caught inside the loop, so the function is
total. -/
structure FetchTrace where
  result : Option String
  gets : Nat
  sleeps : List ℚ
deriving DecidableEq, Repr

/-- The retry loop of `fetch_html`.  `attemptOutcome k` is the outcome
of the GET of attempt number `k` (0-based): `some body` for a 2xx
response, `none` when the attempt raises (transport error, timeout, or
`raise_for_status`).  `remaining` is `max_retries - attempt`, `backoff`
starts at 1.0; after a failed attempt that is not the last, the code
sleeps `backoff * RETRY_BACKOFF` and multiplies `backoff` by
`RETRY_BACKOFF`. -/
def fetchLoop (attemptOutcome : Nat → Option String) :
    Nat → Nat → ℚ → Nat → List ℚ → FetchTrace
  | 0, _, _, gets, sleeps => ⟨none, gets, sleeps⟩
  | remaining + 1, attempt, backoff, gets, sleeps =>
    match attemptOutcome attempt with
    | some body => ⟨some body, gets + 1, sleeps⟩
    | none =>
      match remaining with
      | 0 => ⟨none, gets + 1, sleeps⟩
      | r + 1 =>
        fetchLoop attemptOutcome (r + 1) (attempt + 1) (backoff * RETRY_BACKOFF)
          (gets + 1) (sleeps ++ [backoff * RETRY_BACKOFF])

/-- The call `fetch_html url timeout max_retries`, abstracted over the network:
`attemptOutcome` stands for the result of each `scraper.get`. -/
def fetch_html (attemptOutcome : Nat → Option String) (max_retries : Nat) : FetchTrace :=
  fetchLoop attemptOutcome max_retries 0 1 0 []

/-! ### Artifact writer (`scrap.py`, `safe_filename` and
`save_article_to_txt`) -/

/-- Characters kept by `safe_filename`'s second substitution
(`[^A-Za-z0-9_\-\.]` is removed). -/
def isSafeCh (c : Char) : Bool :=
  (('A' ≤ c && c ≤ 'Z') || ('a' ≤ c && c ≤ 'z') || ('0' ≤ c && c ≤ '9')) ||
  c == '_' || c == '-' || c == '.'

/-- The substitution `re.sub` of `\s+` by `_`: every maximal whitespace run becomes one
underscore.  The flag records whether the previous character was
whitespace. -/
def collapseWsGo : Bool → List Char → List Char
  | _, [] => []
  | prevWs, c :: cs =>
    if isSpaceCh c then
      if prevWs then collapseWsGo true cs else '_' :: collapseWsGo true cs
    else c :: collapseWsGo false cs

/-- The sanitizer `safe_filename`: strip, collapse whitespace runs to underscores,
drop unsafe characters, truncate to `max_len` (120), default
`"article"`. -/
def safe_filename (s : String) : String :=
  let l := ((collapseWsGo false (pyStrip s.toList)).filter isSafeCh).take 120
  if l.isEmpty then "article" else String.mk l

/-- Decimal digits of `n`, most significant first, via a structurally
decreasing fuel (any fuel above `n` yields the exact digits); models
Python's `str` on a positive `int`. -/
def natDigitsGo : Nat → Nat → List Char
  | 0, _ => []
  | fuel + 1, n =>
    if n == 0 then []
    else natDigitsGo fuel (n / 10) ++ [Char.ofNat (48 + n % 10)]

/-- Python `str(n)` for a natural number. -/
def natStr (n : Nat) : String :=
  if n == 0 then "0" else String.mk (natDigitsGo (n + 1) n)

/-- Decimal value of a digit string; inverts `natDigitsGo` and so
witnesses that distinct counters yield distinct suffixes. -/
def digitsVal (l : List Char) : Nat :=
  l.foldl (fun a c => a * 10 + (c.toNat - 48)) 0

/-- The k-th candidate filename tried by `save_article_to_txt` for the
sanitized base `sb`: `sb.txt` first, then `sb_1.txt`, `sb_2.txt`, …. -/
def candName (sb : String) (k : Nat) : String :=
  if k == 0 then sb ++ ".txt" else sb ++ "_" ++ natStr k ++ ".txt"

/-- The collision `while` loop: starting from candidate index `k`,
return the first candidate name not present in the directory; `fuel`
bounds the search (any fuel larger than the index of the first free
candidate yields it). -/
def scanFreeName (dir : List String) (sb : String) : Nat → Nat → String
  | 0, k => candName sb k
  | fuel + 1, k =>
    if dir.contains (candName sb k) then scanFreeName dir sb fuel (k + 1)
    else candName sb k

/-- The writer `save_article_to_txt` restricted to its filename side effect: the
directory is the list of file names present; the write appends the
first free candidate derived from the raw base `base`
(`f"{slug}_{title[:60]}".strip()` in the caller).  Returns the new
directory contents and the name written. -/
def save_article (dir : List String) (base : String) : List String × String :=
  let name := scanFreeName dir (safe_filename base) (dir.length + 1) 0
  (dir ++ [name], name)

/-- N successive writes of artifacts sharing one raw base. -/
def save_batch (dir : List String) (base : String) : Nat → List String
  | 0 => dir
  | n + 1 => (save_article (save_batch dir base n) base).1

/-- The exact strings passed to `f.write` by `save_article_to_txt`, in
order. -/
def article_file_writes (title url content : String) : List String :=
  ["Source: " ++ url ++ "\n",
   "Title: " ++ title ++ "\n",
   String.mk (List.replicate 80 '=') ++ "\n\n",
   content]

/-- The bytes of the artifact file: the concatenation of the writes. -/
def article_file_content (title url content : String) : String :=
  String.join (article_file_writes title url content)

/-- Modelled from the spec's wire-format description (§4.4/§6): the
artifact is the lines `Source: <url>`, `Title: <title>`, an
80-character `=` separator line and a blank line, joined by newlines,
followed by the raw body. -/
def specArtifactFormat (title url content : String) : String :=
  String.intercalate "\n"
    ["Source: " ++ url, "Title: " ++ title, String.mk (List.replicate 80 '='), "", content]

/-! ### Dataset builder sink (`excraction_features.py`, `save_to_csv`) -/

/-- The CSV output sink: `none` while no file has been written,
`some rows` after a write (header row first).  Serialization mechanics
are out of scope; rows are kept as field lists. -/
abbrev CsvSink := Option (List (List String))

/-- A record as the ordered key/value mapping the builder produces. -/
abbrev CsvRecord := List (String × String)

/-- The sink `save_to_csv`: with no data, warn and leave the sink untouched;
otherwise write the header (the first record's keys) and one row per
record, each row listing the record's values in header order. -/
def save_to_csv (data : List CsvRecord) (sink : CsvSink) : CsvSink × List String :=
  match data with
  | [] => (sink, ["[WARN] No data to write."])
  | d :: ds =>
    let keys := d.map Prod.fst
    let rows := (d :: ds).map (fun r => keys.map (fun k => (((r.find? (fun kv => kv.1 == k)).map Prod.snd).getD "")))
    (some (keys :: rows), ["[SUCCESS] Extracted data written to output file."])

/-! ### HTML tree model (the parsing library is treated as a capability
"parse HTML into a queryable tree"; `find`/`find_all` walk the tree in
document order, i.e. preorder).  Traversals are indexed by a fuel that
strictly decreases on every recursive call, so they are structurally
recursive and kernel-reducible; any fuel at least the node count of the
tree yields the full traversal, and the theorems below hold for every
fuel because each function is evaluated at one common fuel. -/

/-- An HTML node: a text leaf, or an element with tag name, `class`
attribute (raw string, possibly empty), optional `href` attribute, and
children. -/
inductive HNode where
  | txt (s : String) : HNode
  | elem (tag : String) (cls : String) (href : Option String) (children : List HNode) : HNode

/-- Tag name of a node (empty for text). -/
def tagOf : HNode → String
  | .txt _ => ""
  | .elem t _ _ _ => t

/-- The `class` attribute of a node. -/
def clsOf : HNode → String
  | .txt _ => ""
  | .elem _ c _ _ => c

/-- The `href` attribute of a node. -/
def hrefOf : HNode → Option String
  | .txt _ => none
  | .elem _ _ h _ => h

/-- Children of a node. -/
def childrenOf : HNode → List HNode
  | .txt _ => []
  | .elem _ _ _ cs => cs

/-- All element nodes of a forest in document (preorder) order. -/
def allElems : Nat → List HNode → List HNode
  | 0, _ => []
  | _ + 1, [] => []
  | f + 1, .txt _ :: rest => allElems f rest
  | f + 1, .elem t c h cs :: rest =>
    .elem t c h cs :: (allElems f cs ++ allElems f rest)

/-- All text leaves of a forest in document order. -/
def allTextLeaves : Nat → List HNode → List String
  | 0, _ => []
  | _ + 1, [] => []
  | f + 1, .txt s :: rest => s :: allTextLeaves f rest
  | f + 1, .elem _ _ _ cs :: rest => allTextLeaves f cs ++ allTextLeaves f rest

/-- Join text fragments with a newline between consecutive fragments
(`get_text(separator="\n")`). -/
def joinNL : List (List Char) → List Char
  | [] => []
  | [x] => x
  | x :: y :: rest => x ++ '\n' :: joinNL (y :: rest)

/-- The stripped, non-empty text fragments under a node
(BeautifulSoup's `stripped_strings`). -/
def strippedTexts (fuel : Nat) (n : HNode) : List (List Char) :=
  ((allTextLeaves fuel [n]).map (fun s => pyStrip s.toList)).filter (fun t => !t.isEmpty)

/-- BeautifulSoup `node.get_text(separator="\n", strip=True)`. -/
def getTextNL (fuel : Nat) (n : HNode) : List Char := joinNL (strippedTexts fuel n)

/-- BeautifulSoup `node.get_text(strip=True)` (empty separator). -/
def getTextConcat (fuel : Nat) (n : HNode) : List Char := (strippedTexts fuel n).flatten

/-- Tags removed (`decompose`d) before reading a selected container's
text. -/
def badTag (t : String) : Bool :=
  t == "script" || t == "style" || t == "noscript" || t == "iframe"

/-- Remove every `script`/`style`/`noscript`/`iframe` subtree of a
forest. -/
def scrub : Nat → List HNode → List HNode
  | 0, _ => []
  | _ + 1, [] => []
  | f + 1, .txt s :: rest => .txt s :: scrub f rest
  | f + 1, .elem t c h cs :: rest =>
    if badTag t then scrub f rest
    else .elem t c h (scrub f cs) :: scrub f rest

/-- Remove bad subtrees below a node. -/
def scrubNode (fuel : Nat) : HNode → HNode
  | .txt s => .txt s
  | .elem t c h cs => .elem t c h (scrub fuel cs)

/-- BeautifulSoup `class_` matching: a pattern matches the element's
`class` attribute if it equals the attribute string exactly (the
multi-class patterns used here) or equals one of its
whitespace-separated tokens. -/
def classMatch (pat attr : String) : Bool :=
  pat == attr || ((pyWords attr.toList).map String.mk).contains pat

/-- BeautifulSoup `soup.find(tag, attrs)`: first element in document order with the
given tag and, when present, a matching class. -/
def findElem (fuel : Nat) (doc : List HNode) (tag : String) (cls : Option String) :
    Option HNode :=
  (allElems fuel doc).find? (fun n =>
    tagOf n == tag &&
      (match cls with
       | none => true
       | some p => classMatch p (clsOf n)))

/-! ### Listing link extractor (`scrap.py`, `extract_article_links`).
`urljoin` is an external library capability; it is passed in as
`resolve`, constrained only where a claim needs it (an absolute
http/https URL resolves to itself). -/

/-- Primary rule: every `h3` with class `entry-title td-module-title`,
taking the first descendant anchor carrying an `href`, resolved against
the base URL. -/
def primaryLinks (fuel : Nat) (resolve : String → String → String)
    (doc : List HNode) (base : String) : List String :=
  ((allElems fuel doc).filter (fun n =>
      tagOf n == "h3" && classMatch "entry-title td-module-title" (clsOf n))).filterMap
    (fun h3 =>
      ((allElems fuel (childrenOf h3)).findSome? (fun n =>
          if tagOf n == "a" then hrefOf n else none)).map (resolve base))

/-- Substring occurrence test. -/
def containsSub : List Char → List Char → Bool
  | [], p => p.isEmpty
  | c :: cs, p => isPrefixL p (c :: cs) || containsSub cs p

/-- The non-article markers excluded by the fallback rule, tested
against the lowercased resolved URL. -/
def badMarker (full : String) : Bool :=
  let lowfull := full.toList.map Char.toLower
  [".pdf".toList, ".jpg".toList, ".png".toList, "#".toList, "?replytocom".toList].any
    (containsSub lowfull)

/-- Fallback rule: every anchor with an `href` whose raw or resolved
URL starts with the base URL, excluding URLs containing a non-article
marker. -/
def fallbackLinks (fuel : Nat) (resolve : String → String → String)
    (doc : List HNode) (base : String) : List String :=
  (allElems fuel doc).filterMap (fun n =>
    match (if tagOf n == "a" then hrefOf n else none) with
    | none => none
    | some href =>
      if isPrefixL base.toList href.toList ||
          isPrefixL base.toList (resolve base href).toList then
        if badMarker (resolve base href) then none else some (resolve base href)
      else none)

/-- The candidate links before deduplication: the primary rule, or the
fallback when it found nothing. -/
def collectLinks (fuel : Nat) (resolve : String → String → String)
    (doc : List HNode) (base : String) : List String :=
  let prim := primaryLinks fuel resolve doc base
  if prim.isEmpty then fallbackLinks fuel resolve doc base else prim

/-- The dedup loop: `seen` is the set of already-emitted links. -/
def dedupAux (seen : List String) : List String → List String
  | [] => []
  | l :: ls =>
    if seen.contains l then dedupAux seen ls
    else l :: dedupAux (l :: seen) ls

/-- The extractor `extract_article_links`: collect candidates, then deduplicate
preserving order. -/
def extract_article_links (fuel : Nat) (resolve : String → String → String)
    (doc : List HNode) (base : String) : List String :=
  dedupAux [] (collectLinks fuel resolve doc base)

/-- Modelled from the spec's dedup description (§4.2/§8): keep each
distinct URL once, at its first occurrence. -/
def keepFirst : List String → List String
  | [] => []
  | x :: xs => x :: (keepFirst xs).filter (fun y => !(y == x))

/-! ### Article content extractor (`scrap.py`, `extract_article_content`) -/

/-- The ordered content-container selector cascade. -/
def contentSelectors : List (String × Option String) :=
  [("div", some "tdb-block-inner td-fix-index"),
   ("div", some "td-post-content"),
   ("div", some "entry-content"),
   ("div", some "post-content"),
   ("article", none)]

/-- The selector loop: the first selector whose node exists and whose
scrubbed text is non-empty and longer than 50 characters wins; a
missing node or short text moves on to the next selector. -/
def selectorContent (fuel : Nat) (doc : List HNode) : Option (List Char) :=
  contentSelectors.findSome? (fun sel =>
    match findElem fuel doc sel.1 sel.2 with
    | none => none
    | some n =>
      let txt := getTextNL fuel (scrubNode fuel n)
      if !txt.isEmpty && txt.length > 50 then some txt else none)

/-- The fallback candidate list: every `div`/`section`/`article`
descendant of the body, paired as `(len(text), text)` in document
order, without scrubbing (the fallback reads raw text). -/
def fallbackCandidates (fuel : Nat) (doc : List HNode) : List (Nat × List Char) :=
  match (allElems fuel doc).find? (fun n => tagOf n == "body") with
  | none => []
  | some b =>
    (allElems fuel (childrenOf b)).filterMap (fun n =>
      if tagOf n == "div" || tagOf n == "section" || tagOf n == "article" then
        some ((getTextNL fuel n).length, getTextNL fuel n)
      else none)

/-- Python code-point comparison of strings (`<`). -/
def charsLt : List Char → List Char → Bool
  | [], [] => false
  | [], _ :: _ => true
  | _ :: _, [] => false
  | a :: xs, b :: ys => if a < b then true else if b < a then false else charsLt xs ys

/-- Python tuple comparison `x > y` on `(len, text)` pairs: first by
length, then by text code points. -/
def pairGt (x y : Nat × List Char) : Bool :=
  y.1 < x.1 || (x.1 == y.1 && charsLt y.2 x.2)

/-- The element `candidates.sort(reverse=True)` places first: the
leftmost maximum under the tuple order (the sort is stable, so among
elements comparing equal the earliest stays first, and a strictly
greater element always moves ahead). -/
def pickMax : (Nat × List Char) → List (Nat × List Char) → Nat × List Char
  | acc, [] => acc
  | acc, x :: xs => pickMax (if pairGt x acc then x else acc) xs

/-- The `h1` title selector cascade (`None` means bare `h1`). -/
def titleSelectors : List (Option String) :=
  [none, some "entry-title", some "td-page-title", some "post-title"]

/-- BeautifulSoup `soup.title.string`: the title tag's string when it has exactly one
text child. -/
def titleTagString (fuel : Nat) (doc : List HNode) : Option String :=
  match findElem fuel doc "title" none with
  | some (.elem _ _ _ [.txt s]) => some s
  | _ => none

/-- The extractor `extract_article_content`: title from the document title tag,
overridden by the first non-empty `h1` of the cascade, defaulting to
`"untitled"`; content from the selector cascade, falling back to the
largest body block when its text exceeds 100 characters. -/
def extract_article_content (fuel : Nat) (doc : List HNode) : String × String :=
  let t0 : String :=
    match titleTagString fuel doc with
    | some s => String.mk (pyStrip s.toList)
    | none => ""
  let t1 : String :=
    match titleSelectors.findSome? (fun sel =>
        match findElem fuel doc "h1" sel with
        | none => none
        | some n =>
          let g := getTextConcat fuel n
          if g.isEmpty then none else some (String.mk g)) with
    | some s => s
    | none => t0
  let content : List Char :=
    match selectorContent fuel doc with
    | some t => t
    | none =>
      match fallbackCandidates fuel doc with
      | [] => []
      | c :: cs =>
        let m := pickMax c cs
        if 100 < m.1 then m.2 else []
  (if t1.isEmpty then "untitled" else t1, String.mk content)

/-! ### Concrete scenario inputs -/

/-- The artifact text of end-to-end scenario 1. -/
def scenario1Text : String :=
  "Source: https://x.test/a\nTitle: T\n====\n\nAcme Corp raises $5 million in Series A funding, founded in 2019."

/-- A pattern-free artifact text. -/
def plainText : String := "nothing of note was written in this place"

/-- Base URL of the link-extraction scenario. -/
def c8base : String := "https://site.test/"

/-- First same-origin article URL. -/
def c8u1 : String := "https://site.test/alpha"

/-- The same-origin PDF URL. -/
def c8u2 : String := "https://site.test/report.pdf"

/-- Second same-origin article URL. -/
def c8u3 : String := "https://site.test/beta"

/-- Anchor to the first article. -/
def c8a1 : HNode := .elem "a" "" (some c8u1) [.txt "A"]

/-- Anchor to the PDF. -/
def c8a2 : HNode := .elem "a" "" (some c8u2) [.txt "B"]

/-- Anchor to the second article. -/
def c8a3 : HNode := .elem "a" "" (some c8u3) [.txt "C"]

/-- Body of the listing page: three anchors, no structural headings. -/
def c8body : HNode := .elem "body" "" none [c8a1, c8a2, c8a3]

/-- Root element of the listing page. -/
def c8html : HNode := .elem "html" "" none [c8body]

/-- The listing document of end-to-end scenario 2. -/
def c8doc : List HNode := [c8html]

/-- Text of the first (document-order) tied block: 101 `a`s. -/
def tieTextA : List Char := List.replicate 101 'a'

/-- Text of the second tied block: 101 `b`s. -/
def tieTextB : List Char := List.replicate 101 'b'

/-- A document whose body holds two class-less `div` blocks with texts
of equal length 101, the `a`-block first in document order; no content
selector matches it. -/
def tieDoc : List HNode :=
  [.elem "html" "" none [.elem "body" "" none
    [.elem "div" "" none [.txt (String.mk tieTextA)],
     .elem "div" "" none [.txt (String.mk tieTextB)]]]]

/-- A listing whose anchors repeat one URL: used to witness the dedup
claim. -/
def dupDoc : List HNode :=
  [.elem "body" "" none
    [.elem "a" "" (some "https://d.test/x") [],
     .elem "a" "" (some "https://d.test/x") [],
     .elem "a" "" (some "https://d.test/y") []]]

/-! ## Theorems -/

/-! ### Stable deduplication (claim C5) -/

/-- The dedup loop keeps, of the first-occurrence subsequence, exactly
the entries not already seen. -/
theorem dedupAux_eq (l : List String) :
    ∀ seen, dedupAux seen l = (keepFirst l).filter (fun y => !seen.contains y) := by
  induction l with
  | nil => intro seen; rfl
  | cons x xs ih =>
    intro seen
    simp only [dedupAux, keepFirst, List.filter_cons]
    cases hx : seen.contains x with
    | true =>
      rw [if_pos rfl, if_neg (by simp)]
      rw [ih seen, List.filter_filter]
      apply List.filter_congr
      intro a _
      cases hax : a == x with
      | true =>
        have ha : a = x := by simpa using hax
        subst ha
        simp only [hx, Bool.not_true, Bool.false_and]
      | false => simp only [hax, Bool.not_false, Bool.and_true]
    | false =>
      rw [if_neg (by simp), if_pos (by simp)]
      rw [ih (x :: seen), List.filter_filter]
      congr 1
      apply List.filter_congr
      intro a _
      simp only [List.contains_cons, Bool.not_or, Bool.and_comm]

/-- First-occurrence lists have no duplicates. -/
theorem keepFirst_nodup (l : List String) : (keepFirst l).Nodup := by
  induction l with
  | nil => exact List.nodup_nil
  | cons x xs ih =>
    refine List.Nodup.cons ?_ (List.Nodup.filter _ ih)
    intro hmem
    have hx := List.of_mem_filter hmem
    simp at hx

/-- Keeping first occurrences preserves membership. -/
theorem mem_keepFirst {a : String} (l : List String) : a ∈ keepFirst l ↔ a ∈ l := by
  induction l with
  | nil => simp [keepFirst]
  | cons x xs ih =>
    by_cases hax : a = x
    · subst hax; simp [keepFirst]
    · simp [keepFirst, List.mem_filter, hax, ih]

/-- The first-occurrence list is a subsequence of the input. -/
theorem keepFirst_sublist (l : List String) : List.Sublist (keepFirst l) l := by
  induction l with
  | nil => simp [keepFirst]
  | cons x xs ih =>
    exact List.Sublist.cons₂ x ((List.filter_sublist _).trans ih)

/-- C5: for every listing, `extract_article_links` returns the
collected candidate links deduplicated in first-seen order — it equals
the first-occurrence subsequence of the candidates, has no duplicates,
is a subsequence of the candidates (so no reordering), and contains
each candidate URL exactly once. -/
theorem extract_links_dedup (fuel : Nat) (resolve : String → String → String)
    (doc : List HNode) (base : String) :
    extract_article_links fuel resolve doc base =
      keepFirst (collectLinks fuel resolve doc base) ∧
    (extract_article_links fuel resolve doc base).Nodup ∧
    List.Sublist (extract_article_links fuel resolve doc base)
      (collectLinks fuel resolve doc base) ∧
    ∀ u ∈ collectLinks fuel resolve doc base,
      (extract_article_links fuel resolve doc base).count u = 1 := by
  have he : extract_article_links fuel resolve doc base =
      keepFirst (collectLinks fuel resolve doc base) := by
    unfold extract_article_links
    rw [dedupAux_eq]
    simp
  refine ⟨he, ?_, ?_, ?_⟩
  · rw [he]; exact keepFirst_nodup _
  · rw [he]; exact keepFirst_sublist _
  · intro u hu
    rw [he]
    exact List.count_eq_one_of_mem (keepFirst_nodup _) ((mem_keepFirst _).mpr hu)

/-- C5 witness: on a listing with a repeated anchor URL the output
lists each distinct URL once, in first-seen order. -/
theorem extract_links_dedup_witness :
    extract_article_links 10 (fun _ h => h) dupDoc "https://d.test/" =
      keepFirst (collectLinks 10 (fun _ h => h) dupDoc "https://d.test/") ∧
    extract_article_links 10 (fun _ h => h) dupDoc "https://d.test/" =
      ["https://d.test/x", "https://d.test/y"] ∧
    (extract_article_links 10 (fun _ h => h) dupDoc "https://d.test/").count "https://d.test/x" = 1 := by
  refine ⟨(extract_links_dedup 10 (fun _ h => h) dupDoc "https://d.test/").1, by decide, ?_⟩
  exact (extract_links_dedup 10 (fun _ h => h) dupDoc "https://d.test/").2.2.2
    "https://d.test/x" (by decide)

/-! ### Largest-block fallback (claim C3) -/

/-- Code-point comparison is irreflexive. -/
theorem charsLt_irrefl (l : List Char) : charsLt l l = false := by
  induction l with
  | nil => rfl
  | cons c cs ih => simp [charsLt, ih]

/-- Code-point comparison is transitive. -/
theorem charsLt_trans : ∀ {a b c : List Char},
    charsLt a b = true → charsLt b c = true → charsLt a c = true := by
  intro a
  induction a with
  | nil =>
    intro b c h1 h2
    cases b with
    | nil => simp [charsLt] at h1
    | cons y ys =>
      cases c with
      | nil => simp [charsLt] at h2
      | cons z zs => rfl
  | cons x xs ih =>
    intro b c h1 h2
    cases b with
    | nil => simp [charsLt] at h1
    | cons y ys =>
      cases c with
      | nil => simp [charsLt] at h2
      | cons z zs =>
        simp only [charsLt] at h1 h2 ⊢
        by_cases hxy : x < y
        · by_cases hyz : y < z
          · simp [lt_trans hxy hyz]
          · by_cases hzy : z < y
            · rw [if_neg hyz, if_pos hzy] at h2
              exact absurd h2 (by simp)
            · have hyzeq : y = z := le_antisymm (not_lt.mp hzy) (not_lt.mp hyz)
              subst hyzeq
              simp [hxy]
        · by_cases hyx : y < x
          · rw [if_neg hxy, if_pos hyx] at h1
            exact absurd h1 (by simp)
          · have hxyeq : x = y := le_antisymm (not_lt.mp hyx) (not_lt.mp hxy)
            subst hxyeq
            rw [if_neg hxy, if_neg hyx] at h1
            by_cases hyz : x < z
            · simp [hyz]
            · by_cases hzy : z < x
              · rw [if_neg hyz, if_pos hzy] at h2
                exact absurd h2 (by simp)
              · have hyzeq : x = z := le_antisymm (not_lt.mp hzy) (not_lt.mp hyz)
                subst hyzeq
                rw [if_neg hyz, if_neg hzy] at h2 ⊢
                exact ih h1 h2

/-- Code-point comparison is connex: two mutually non-smaller texts are
equal. -/
theorem charsLt_connex : ∀ {a b : List Char},
    charsLt a b = false → charsLt b a = false → a = b := by
  intro a
  induction a with
  | nil =>
    intro b h1 _
    cases b with
    | nil => rfl
    | cons y ys => simp [charsLt] at h1
  | cons x xs ih =>
    intro b h1 h2
    cases b with
    | nil => simp [charsLt] at h2
    | cons y ys =>
      simp only [charsLt] at h1 h2
      by_cases hxy : x < y
      · rw [if_pos hxy] at h1
        exact absurd h1 (by simp)
      · by_cases hyx : y < x
        · rw [if_pos hyx] at h2
          exact absurd h2 (by simp)
        · have hxyeq : x = y := le_antisymm (not_lt.mp hyx) (not_lt.mp hxy)
          subst hxyeq
          rw [if_neg hxy, if_neg hxy] at h1
          rw [if_neg hxy, if_neg hxy] at h2
          rw [ih h1 h2]

/-- The tuple order is irreflexive. -/
theorem pairGt_irrefl (x : Nat × List Char) : pairGt x x = false := by
  simp [pairGt, charsLt_irrefl]

/-- The tuple order is transitive. -/
theorem pairGt_trans {x y z : Nat × List Char}
    (h1 : pairGt x y = true) (h2 : pairGt y z = true) : pairGt x z = true := by
  simp only [pairGt, Bool.or_eq_true, Bool.and_eq_true, decide_eq_true_eq,
    beq_iff_eq] at h1 h2 ⊢
  rcases h1 with h1 | ⟨h1e, h1l⟩
  · rcases h2 with h2 | ⟨h2e, h2l⟩
    · left; omega
    · left; omega
  · rcases h2 with h2 | ⟨h2e, h2l⟩
    · left; omega
    · right; exact ⟨by omega, charsLt_trans h2l h1l⟩

/-- The tuple order is connex: two mutually non-greater pairs are
equal. -/
theorem pairGt_connex {x y : Nat × List Char}
    (h1 : pairGt x y = false) (h2 : pairGt y x = false) : x = y := by
  simp only [pairGt, Bool.or_eq_false_iff, Bool.and_eq_false_iff,
    decide_eq_false_iff_not, beq_eq_false_iff_ne, ne_eq, not_lt] at h1 h2
  obtain ⟨h1n, h1r⟩ := h1
  obtain ⟨h2n, h2r⟩ := h2
  have he : x.1 = y.1 := by omega
  have hl : x.2 = y.2 := by
    rcases h1r with h | h
    · exact absurd he h
    · rcases h2r with h' | h'
      · exact absurd he.symm h'
      · exact charsLt_connex h' h
  exact Prod.ext he hl

/-- The stable-descending-sort head is the initial element or one of
the rest. -/
theorem pickMax_mem : ∀ (cs : List (Nat × List Char)) (c : Nat × List Char),
    pickMax c cs = c ∨ pickMax c cs ∈ cs := by
  intro cs
  induction cs with
  | nil => intro c; left; rfl
  | cons x xs ih =>
    intro c
    simp only [pickMax]
    by_cases hx : pairGt x c = true
    · rw [if_pos hx]
      rcases ih x with h | h
      · right; rw [h]; exact List.mem_cons_self x xs
      · right; exact List.mem_cons_of_mem x h
    · rw [if_neg hx]
      rcases ih c with h | h
      · left; exact h
      · right; exact List.mem_cons_of_mem x h

/-- No candidate is strictly greater than the sort head. -/
theorem pickMax_max : ∀ (cs : List (Nat × List Char)) (c x : Nat × List Char),
    x = c ∨ x ∈ cs → pairGt x (pickMax c cs) = false := by
  intro cs
  induction cs with
  | nil =>
    intro c x hx
    rcases hx with rfl | h
    · exact pairGt_irrefl x
    · exact absurd h (List.not_mem_nil x)
  | cons y ys ih =>
    intro c x hx
    simp only [pickMax]
    by_cases hy : pairGt y c = true
    · rw [if_pos hy]
      rcases hx with rfl | hmem
      · -- x = c: anything greater than c would exceed the head through y
        by_cases hc : pairGt x (pickMax y ys) = true
        · have hyr : pairGt y (pickMax y ys) = false := ih y y (Or.inl rfl)
          have : pairGt y (pickMax y ys) = true := pairGt_trans hy hc
          rw [this] at hyr
          exact absurd hyr (by simp)
        · simpa using hc
      · rcases List.mem_cons.mp hmem with h | h
        · exact ih y x (Or.inl h)
        · exact ih y x (Or.inr h)
    · rw [if_neg hy]
      rcases hx with rfl | hmem
      · exact ih x x (Or.inl rfl)
      · rcases List.mem_cons.mp hmem with h | h
        · -- x is the skipped head y: it cannot exceed the running maximum
          subst h
          by_cases hc : pairGt x (pickMax c ys) = true
          · have hcr : pairGt c (pickMax c ys) = false := ih c c (Or.inl rfl)
            by_cases hcy : pairGt c x = true
            · have : pairGt c (pickMax c ys) = true := pairGt_trans hcy hc
              rw [this] at hcr
              exact absurd hcr (by simp)
            · have hxc : x = c := pairGt_connex (by simpa using hy) (by simpa using hcy)
              rw [hxc] at hc
              rw [hc] at hcr
              exact absurd hcr (by simp)
          · simpa using hc
        · exact ih c x (Or.inr h)

/-- C3 counterexample: in `tieDoc` no selector matches and the body
holds two blocks of equal text length 101, the `a`-block first in
document order; the code returns the `b`-block's text (the
lexicographically greatest tied tuple), not the first-encountered
block's text, refuting the claimed tie-break. -/
theorem fallback_tie_counterexample :
    selectorContent 20 tieDoc = none ∧
    fallbackCandidates 20 tieDoc = [(101, tieTextA), (101, tieTextB)] ∧
    (extract_article_content 20 tieDoc).2 = String.mk tieTextB ∧
    String.mk tieTextB ≠ String.mk tieTextA := by
  refine ⟨by decide, by decide, by decide, by decide⟩

/-- C3 amended: when no named content-container selector yields
accepted text and the body-block scan is non-empty, the code selects
the unique candidate block that no other candidate beats under the
Python tuple order on `(length, text)` — greatest length first, with
ties on length broken in favour of the lexicographically greatest text
(equal-on-both-components ties are unobservable) — and accepts its text
only if its length exceeds 100 characters, the body otherwise being
empty. -/
theorem fallback_largest_block (fuel : Nat) (doc : List HNode)
    (hsel : selectorContent fuel doc = none)
    (c : Nat × List Char) (cs : List (Nat × List Char))
    (hc : fallbackCandidates fuel doc = c :: cs) :
    ∃ m ∈ fallbackCandidates fuel doc,
      (∀ x ∈ fallbackCandidates fuel doc, pairGt x m = false) ∧
      (∀ y ∈ fallbackCandidates fuel doc,
        (∀ x ∈ fallbackCandidates fuel doc, pairGt x y = false) → y = m) ∧
      (extract_article_content fuel doc).2 =
        if 100 < m.1 then String.mk m.2 else "" := by
  have hm_mem : pickMax c cs ∈ fallbackCandidates fuel doc := by
    rw [hc]
    rcases pickMax_mem cs c with h | h
    · rw [h]; exact List.mem_cons_self _ _
    · exact List.mem_cons_of_mem _ h
  refine ⟨pickMax c cs, hm_mem, ?_, ?_, ?_⟩
  · intro x hx
    rw [hc] at hx
    rcases List.mem_cons.mp hx with h | h
    · exact pickMax_max cs c x (Or.inl h)
    · exact pickMax_max cs c x (Or.inr h)
  · intro y hy hmax
    have h1 : pairGt y (pickMax c cs) = false := by
      rw [hc] at hy
      rcases List.mem_cons.mp hy with h | h
      · exact pickMax_max cs c y (Or.inl h)
      · exact pickMax_max cs c y (Or.inr h)
    exact pairGt_connex h1 (hmax _ hm_mem)
  · simp only [extract_article_content, hsel, hc]
    by_cases hg : 100 < (pickMax c cs).1
    · simp [hg]
    · simp [hg]

/-- C3 witness: the amended statement instantiated on `tieDoc`. -/
theorem fallback_largest_block_witness :
    selectorContent 20 tieDoc = none ∧
    (∃ m ∈ fallbackCandidates 20 tieDoc,
      (∀ x ∈ fallbackCandidates 20 tieDoc, pairGt x m = false) ∧
      (∀ y ∈ fallbackCandidates 20 tieDoc,
        (∀ x ∈ fallbackCandidates 20 tieDoc, pairGt x y = false) → y = m) ∧
      (extract_article_content 20 tieDoc).2 =
        if 100 < m.1 then String.mk m.2 else "") :=
  ⟨by decide,
   fallback_largest_block 20 tieDoc (by decide) (101, tieTextA)
     [(101, tieTextB)] (by decide)⟩

/-! ### Filename collision policy (claim C6) -/

/-- Strings with equal character data are equal. -/
theorem str_ext {a b : String} (h : a.data = b.data) : a = b := by
  cases a
  cases b
  exact congrArg String.mk h

/-- Appending a digit multiplies the value by ten. -/
theorem digitsVal_append (l : List Char) (c : Char) :
    digitsVal (l ++ [c]) = digitsVal l * 10 + (c.toNat - 48) := by
  simp [digitsVal, List.foldl_append]

/-- With enough fuel, the rendered digits evaluate back to the number. -/
theorem natDigitsGo_val : ∀ fuel n, n ≤ fuel → digitsVal (natDigitsGo fuel n) = n := by
  intro fuel
  induction fuel with
  | zero =>
    intro n hn
    interval_cases n
    rfl
  | succ f ih =>
    intro n hn
    by_cases h0 : n = 0
    · subst h0; rfl
    · have hlt : n / 10 ≤ f := by
        have := Nat.div_lt_self (Nat.pos_of_ne_zero h0) (by norm_num : (1 : Nat) < 10)
        omega
      have hd : (Char.ofNat (48 + n % 10)).toNat = 48 + n % 10 := by
        have h10 : n % 10 < 10 := Nat.mod_lt _ (by norm_num)
        set r := n % 10 with hr
        interval_cases r <;> decide
      simp only [natDigitsGo]
      rw [if_neg (by simp [h0]), digitsVal_append, ih (n / 10) hlt, hd]
      omega

/-- Python decimal rendering is injective. -/
theorem natStr_inj {m n : Nat} (h : natStr m = natStr n) : m = n := by
  have hval : ∀ p : Nat, p ≠ 0 → digitsVal (natStr p).data = p := by
    intro p hp
    rw [natStr, if_neg (by simp [hp])]
    exact natDigitsGo_val (p + 1) p (by omega)
  by_cases hm : m = 0 <;> by_cases hn : n = 0
  · omega
  · exfalso
    have := hval n hn
    rw [← h, hm] at this
    simp [digitsVal, natStr] at this
    omega
  · exfalso
    have := hval m hm
    rw [h, hn] at this
    simp [digitsVal, natStr] at this
    omega
  · have h1 := hval m hm
    have h2 := hval n hn
    rw [h] at h1
    omega

/-- The candidate filenames are pairwise distinct. -/
theorem candName_inj (sb : String) : ∀ {j k : Nat}, candName sb j = candName sb k → j = k := by
  intro j k h
  unfold candName at h
  by_cases hj : j = 0 <;> by_cases hk : k = 0
  · omega
  · exfalso
    rw [if_pos (by simp [hj]), if_neg (by simp [hk])] at h
    have hd := congrArg String.data h
    simp only [String.data_append, List.append_assoc] at hd
    have := List.append_cancel_left hd
    simp at this
  · exfalso
    rw [if_neg (by simp [hj]), if_pos (by simp [hk])] at h
    have hd := congrArg String.data h
    simp only [String.data_append, List.append_assoc] at hd
    have := List.append_cancel_left hd
    simp at this
  · rw [if_neg (by simp [hj]), if_neg (by simp [hk])] at h
    have hd := congrArg String.data h
    simp only [String.data_append, List.append_assoc] at hd
    have h1 := List.append_cancel_left hd
    simp only [List.cons_append, List.nil_append, List.cons.injEq, true_and] at h1
    have h2 : (natStr j).data = (natStr k).data := List.append_cancel_right h1
    exact natStr_inj (str_ext h2)

/-- The collision loop returns the first free candidate: if candidates
`k … j-1` are all taken and candidate `j` is free, the scan starting at
`k` with more than `j - k` fuel returns candidate `j`. -/
theorem scanFreeName_spec (dir : List String) (sb : String) :
    ∀ fuel k j, k ≤ j → (∀ i, k ≤ i → i < j → candName sb i ∈ dir) →
      candName sb j ∉ dir → j - k < fuel →
      scanFreeName dir sb fuel k = candName sb j := by
  intro fuel
  induction fuel with
  | zero =>
    intro k j _ _ _ hfl
    omega
  | succ f ih =>
    intro k j hkj hmem hfree hfl
    by_cases hkj' : k = j
    · subst hkj'
      simp only [scanFreeName]
      rw [if_neg (fun hc => hfree (List.mem_of_elem_eq_true hc))]
    · have hkj2 : k < j := by omega
      simp only [scanFreeName]
      rw [if_pos (List.elem_eq_true_of_mem (hmem k le_rfl hkj2))]
      exact ih (k + 1) j (by omega) (fun i h1 h2 => hmem i (by omega) h2) hfree (by omega)

/-- N collision-resolving writes append exactly candidates `0 … N-1`. -/
theorem save_batch_spec (dir0 : List String) (base : String) :
    ∀ N, (∀ k, k < N → candName (safe_filename base) k ∉ dir0) →
      save_batch dir0 base N =
        dir0 ++ (List.range N).map (candName (safe_filename base)) := by
  intro N
  induction N with
  | zero => intro _; simp [save_batch]
  | succ n ih =>
    intro hfresh
    have ihn := ih (fun k hk => hfresh k (by omega))
    simp only [save_batch, save_article]
    rw [ihn]
    have hname : scanFreeName (dir0 ++ (List.range n).map (candName (safe_filename base)))
        (safe_filename base)
        ((dir0 ++ (List.range n).map (candName (safe_filename base))).length + 1) 0 =
        candName (safe_filename base) n := by
      apply scanFreeName_spec
      · omega
      · intro i _ hi
        exact List.mem_append.mpr (Or.inr (List.mem_map.mpr ⟨i, List.mem_range.mpr hi, rfl⟩))
      · intro hmem
        rcases List.mem_append.mp hmem with hcase | hcase
        · exact hfresh n (by omega) hcase
        · rcases List.mem_map.mp hcase with ⟨i, hi, hie⟩
          have hin := candName_inj _ hie
          have := List.mem_range.mp hi
          omega
      · simp only [List.length_append, List.length_map, List.length_range]
        omega
    rw [hname, List.range_succ, List.map_append, List.append_assoc]
    rfl

/-- C6: writing N artifacts whose sanitized base names all collide
(none of the candidate names pre-existing) yields exactly the files
`base.txt, base_1.txt, …, base_(N-1).txt` in write order — N pairwise
distinct names, the first unsuffixed and the k-th carrying suffix `_k`
as the first free sequentially-checked integer — and every write
preserves directory-wide uniqueness. -/
theorem save_collisions (base : String) (N : Nat) (dir0 : List String)
    (hfresh : ∀ k, k < N → candName (safe_filename base) k ∉ dir0)
    (hnodup : dir0.Nodup) :
    save_batch dir0 base N =
      dir0 ++ (List.range N).map (candName (safe_filename base)) ∧
    ((List.range N).map (candName (safe_filename base))).Nodup ∧
    (save_batch dir0 base N).Nodup ∧
    candName (safe_filename base) 0 = safe_filename base ++ ".txt" ∧
    ∀ k, 0 < k →
      candName (safe_filename base) k = safe_filename base ++ "_" ++ natStr k ++ ".txt" := by
  have he := save_batch_spec dir0 base N hfresh
  have hmapnd : ((List.range N).map (candName (safe_filename base))).Nodup :=
    List.Nodup.map (fun a b hab => candName_inj _ hab) (List.nodup_range N)
  refine ⟨he, hmapnd, ?_, rfl, ?_⟩
  · rw [he]
    refine List.Nodup.append hnodup hmapnd ?_
    intro a ha1 ha2
    rcases List.mem_map.mp ha2 with ⟨i, hi, hie⟩
    exact hfresh i (List.mem_range.mp hi) (hie ▸ ha1)
  · intro k hk
    unfold candName
    rw [if_neg (by simp; omega)]

/-- C6 witness: three colliding writes into an empty directory. -/
theorem save_collisions_witness :
    save_batch [] "my article" 3 = ["my_article.txt", "my_article_1.txt", "my_article_2.txt"] ∧
    (save_batch [] "my article" 3).Nodup :=
  ⟨by decide,
   (save_collisions "my article" 3 [] (fun k _ => List.not_mem_nil _) List.nodup_nil).2.2.1⟩

/-! ### Funding-type shadowing (claim C10) -/

/-- Wherever `\bpre-seed funding\b` matches, `\bseed funding\b` matches
four characters later: the hyphen before `seed` is a non-word character
and so carries a word boundary, and the trailing boundary is shared. -/
theorem preseed_implies_seed (l : List Char) :
    hasPhraseB l ("pre-seed funding".toList) = true →
    hasPhraseB l ("seed funding".toList) = true := by
  intro h
  rw [hasPhraseB, List.any_eq_true] at h ⊢
  obtain ⟨i, hi, hb⟩ := h
  rw [boundedAt] at hb
  simp only [Bool.and_eq_true, beq_iff_eq] at hb
  obtain ⟨⟨htake, _⟩, hright⟩ := hb
  have htake' : (l.drop i).take 16 = "pre-seed funding".toList := htake
  have hlen : ((l.drop i).take 16).length = 16 := by rw [htake']; rfl
  simp only [List.length_take, List.length_drop] at hlen
  refine ⟨i + 4, ?_, ?_⟩
  · rw [List.mem_range] at hi ⊢
    omega
  · rw [boundedAt]
    simp only [Bool.and_eq_true, beq_iff_eq]
    refine ⟨⟨?_, ?_⟩, ?_⟩
    · show (l.drop (i + 4)).take 12 = "seed funding".toList
      have hdd : l.drop (i + 4) = (l.drop i).drop 4 := by
        rw [List.drop_drop]
      rw [hdd, List.take_drop, htake']
      rfl
    · have hchar : l[i + 3]? = some '-' := by
        have h3 : ((l.drop i).take 16)[3]? = (l.drop i)[3]? :=
          List.getElem?_take_of_lt (by norm_num)
        rw [htake'] at h3
        rw [List.getElem?_drop] at h3
        exact h3.symm
      have hidx : i + 4 - 1 = i + 3 := rfl
      rw [hidx, hchar]
      rfl
    · have hidx : i + 4 + ("seed funding".toList).length =
          i + ("pre-seed funding".toList).length := by
        simp only [show ("seed funding".toList).length = 12 from rfl,
          show ("pre-seed funding".toList).length = 16 from rfl]
      rw [hidx]
      exact hright

/-- C10: the funding type is never reported as `"Pre-Seed"` — the
`seed` rule precedes `pre-seed` in the candidate list and fires
whenever the `pre-seed` rule would. -/
theorem funding_type_never_preseed (text : String) :
    (extract_info_from_text text).funding_type ≠ "Pre-Seed" := by
  simp only [extract_info_from_text]
  rcases hfind : fundingTypes.find? (ftypeMatches (text.toList.map Char.toLower))
    with _ | f
  · simp [hfind]
  · simp only [hfind]
    have hmem := List.mem_of_find?_eq_some hfind
    have hp := List.find?_some hfind
    have hcontra : f = "pre-seed" → False := by
      intro hf
      subst hf
      have hps : hasPhraseB (text.toList.map Char.toLower)
          ("pre-seed funding".toList) = true := hp
      have hseed : ftypeMatches (text.toList.map Char.toLower) "seed" = true :=
        preseed_implies_seed (text.toList.map Char.toLower) hps
      rw [show fundingTypes = "seed" ::
          ["pre-seed", "series a", "series b", "series c", "venture",
           "angel", "growth", "bridge"] from rfl] at hfind
      rw [List.find?_cons_of_pos _ hseed] at hfind
      simp at hfind
    fin_cases hmem
    · decide
    · exact absurd rfl hcontra
    all_goals decide

/-- C10 witness: on a text that announces pre-seed funding, the type is
not `"Pre-Seed"` — the shadowing `seed` rule fires instead. -/
theorem funding_type_never_preseed_witness :
    (extract_info_from_text "It closed pre-seed funding today.").funding_type ≠ "Pre-Seed" ∧
    (extract_info_from_text "It closed pre-seed funding today.").funding_type = "Seed" :=
  ⟨funding_type_never_preseed "It closed pre-seed funding today.", by decide⟩

/-! ### All-defaults record (claim C4) -/

/-- C4: when none of the six pattern rules matches — no multiline
`Source:` URL, no `Date:` capture, no month-name date, no
`founded in <year>`, no currency-led amount, no `<type> funding`
phrase, and no company-name window line with an accepted 2–5 word
capture — every field of the record equals the sentinel
`"undefined"`. -/
theorem no_patterns_all_defaults (text : String)
    (h1 : findSourceUrl text.toList = none)
    (h2 : scanOpt dateGroupAt text.toList = none)
    (h3 : scanOptB monthAt none text.toList = none)
    (h4 : scanOptB foundedAt none (text.toList.map Char.toLower) = none)
    (h5 : scanOpt amountAt text.toList = none)
    (h6 : fundingTypes.find? (ftypeMatches (text.toList.map Char.toLower)) = none)
    (h7 : companyField text.toList = none) :
    extract_info_from_text text = defaultInfo := by
  simp only [extract_info_from_text, defaultInfo, h1, h2, h3, h4, h5, h6, h7]

/-- C4 witness: a pattern-free text yields the all-sentinel record. -/
theorem no_patterns_all_defaults_witness :
    extract_info_from_text plainText = defaultInfo :=
  no_patterns_all_defaults plainText (by decide) (by decide) (by decide)
    (by decide) (by decide) (by decide) (by decide)

/-! ### End-to-end extraction scenario (claim C2) -/

/-- C2: scenario 1's artifact text yields exactly the claimed record. -/
theorem scenario1_record :
    extract_info_from_text scenario1Text =
      { company_name := "Acme Corp", funding_amount := "$5 million",
        funding_type := "Series A", article_date := "undefined",
        company_since := "2019", article_url := "https://x.test/a" } := by
  decide

/-! ### Retry backoff trace (claim C1) -/

/-- C1: with `max_retries = 3` and every attempt failing, exactly three
GET attempts are issued, exactly two sleeps of 2.0 s
(`initialBackoff * 2`) and 4.0 s (`initialBackoff * 4`) separate them,
and the call returns the failure value `none` (the per-attempt
exceptions are consumed by the loop). -/
theorem fetch_three_failures :
    fetch_html (fun _ => none) 3 = { result := none, gets := 3, sleeps := [2, 4] } := by
  simp [fetch_html, fetchLoop, RETRY_BACKOFF]
  norm_num

/-! ### Artifact wire format (claim C7) -/

/-- C7: the bytes written by `save_article_to_txt` are exactly the
`Source:` line, the `Title:` line, an 80-character `=` separator line,
a blank line, and the raw body — i.e. the spec's wire format — and the
separator consists of exactly 80 `=` characters. -/
theorem artifact_wire_format (title url content : String) :
    article_file_content title url content = specArtifactFormat title url content ∧
    (String.mk (List.replicate 80 '=')).length = 80 ∧
    ∀ ch ∈ List.replicate 80 '=', ch = '=' := by
  refine ⟨?_, by decide, by decide⟩
  simp [article_file_content, article_file_writes, specArtifactFormat, String.join,
    String.intercalate, String.intercalate.go]
  apply str_ext
  simp [String.data_append]

/-- C7 witness: the wire format at concrete title, URL and body. -/
theorem artifact_wire_format_witness :
    article_file_content "T" "http://u.test/a" "Body." =
      specArtifactFormat "T" "http://u.test/a" "Body." :=
  (artifact_wire_format "T" "http://u.test/a" "Body.").1

/-! ### Empty dataset sink (claim C9) -/

/-- C9: with zero records, `save_to_csv` leaves the output sink exactly
as it was and emits the warning instead of writing or failing. -/
theorem empty_dataset_no_write (sink : CsvSink) :
    save_to_csv [] sink = (sink, ["[WARN] No data to write."]) := rfl

/-! ### Link fallback scenario (claim C8) -/

/-- C8: on a listing with no structural headings and three same-origin
anchors of which one targets a PDF, the primary rule yields nothing and
the fallback returns exactly the two non-PDF anchor URLs, in document
order.  `resolve` stands for `urljoin`, constrained to return the
scenario's absolute URLs unchanged. -/
theorem fallback_link_scenario (resolve : String → String → String)
    (h1 : resolve c8base c8u1 = c8u1) (h2 : resolve c8base c8u2 = c8u2)
    (h3 : resolve c8base c8u3 = c8u3) :
    primaryLinks 20 resolve c8doc c8base = [] ∧
    extract_article_links 20 resolve c8doc c8base = [c8u1, c8u3] := by
  refine ⟨rfl, ?_⟩
  simp [extract_article_links, collectLinks, fallbackLinks, primaryLinks, c8doc, c8html,
    c8body, c8a1, c8a2, c8a3, allElems, tagOf, clsOf, hrefOf, childrenOf, h1, h2, h3,
    classMatch, List.filterMap_cons]
  decide

/-- C8 witness: the scenario with the identity resolver. -/
theorem fallback_link_scenario_witness :
    primaryLinks 20 (fun _ h => h) c8doc c8base = [] ∧
    extract_article_links 20 (fun _ h => h) c8doc c8base = [c8u1, c8u3] :=
  fallback_link_scenario (fun _ h => h) rfl rfl rfl

end Scrap
